import Mathlib

/-
  Shallow embedding of src/extract.py (boa-taxon-extract).

  The embedded layers are:
  - the TAXON_RE regular expression, as a deterministic matcher `matchTaxon`
    (valid because the character classes of adjacent regex pieces are
    disjoint, so greedy matching never needs to backtrack);
  - the parser state machine layered over the streaming HTML tokenizer:
    `handle_starttag`, `handle_endtag`, `handle_data` over `ParserState`,
    driven by abstract markup events (the tokenizer itself is the Python
    standard library and is out of scope, as in the specification);
  - the row builder `build_rows` with its helpers `normalize_species`,
    `subspecies_epithet_only`, `flush_blank_if_needed`, and the
    order-preserving deduplication;
  - the exit-code logic of `main` after a successful fetch.

  Python dict lookup with default "" is modelled by `dictGet` over an
  association list where the most recent write is at the head.
  Python str.split() (split on whitespace runs, dropping empties) is
  modelled by `pySplit`.
-/

namespace BoaExtract

/-- Whitespace as recognised by the Python regex class backslash-s and by
str.split(), restricted to the ASCII range (the inputs of interest contain
only ASCII whitespace). -/
def pyIsSpace (c : Char) : Bool :=
  c = ' ' || c = '\t' || c = '\n' || c = '\r' || c = '\x0b' || c = '\x0c'

/-- Accumulator loop for pySplit: walk the characters, collecting the
current word in reverse; whitespace ends a word, empty pieces are
dropped. -/
def pySplitAux : List Char → List Char → List String
  | [], acc => if acc = [] then [] else [String.mk acc.reverse]
  | c :: rest, acc =>
    if pyIsSpace c then
      if acc = [] then pySplitAux rest []
      else String.mk acc.reverse :: pySplitAux rest []
    else pySplitAux rest (c :: acc)

/-- Python str.split() with no argument: split on whitespace runs and drop
empty pieces. -/
def pySplit (s : String) : List String :=
  pySplitAux s.data []

/-- Python str.lower() restricted to ASCII, as applied to tag and
attribute names. -/
def strLower (s : String) : String :=
  String.mk (s.data.map Char.toLower)

/-- Python str.strip(): drop leading and trailing whitespace. -/
def pyStrip (s : String) : String :=
  String.mk (((s.data.dropWhile pyIsSpace).reverse.dropWhile pyIsSpace).reverse)

/-- Collapse internal whitespace runs to single spaces and trim, as in
the Python idiom of joining str.split() with single spaces. -/
def collapse (s : String) : String :=
  String.intercalate " " (pySplit s)

/-- The regex class [A-Z]. -/
def isUpperAZ (c : Char) : Bool := 'A' ≤ c && c ≤ 'Z'

/-- The regex class [a-z]. -/
def isLowerAZ (c : Char) : Bool := 'a' ≤ c && c ≤ 'z'

/-- The regex class [a-z-] used for the tails of the second and third words. -/
def isLowerOrHyphen (c : Char) : Bool := isLowerAZ c || c = '-'

/-- TAXON_RE from src/extract.py. Matches
Capitalized-word whitespace lowercase-word, optionally followed by
whitespace and a second lowercase word, anchored at both ends; returns the
captured groups (genus, species epithet, optional subspecies epithet).
Greedy matching is deterministic here because letters, hyphen and
whitespace never overlap between adjacent pieces of the pattern. -/
def matchTaxon (s : String) : Option (String × String × Option String) :=
  match s.data with
  | [] => none
  | c :: rest =>
    if isUpperAZ c then
      let w1tail := rest.takeWhile isLowerAZ
      let r1 := rest.dropWhile isLowerAZ
      if w1tail.isEmpty then none
      else if (r1.takeWhile pyIsSpace).isEmpty then none
      else
        match r1.dropWhile pyIsSpace with
        | [] => none
        | d :: r3 =>
          if isLowerAZ d then
            let w2tail := r3.takeWhile isLowerOrHyphen
            let r4 := r3.dropWhile isLowerOrHyphen
            let genus := String.mk (c :: w1tail)
            let word2 := String.mk (d :: w2tail)
            match r4 with
            | [] => some (genus, word2, none)
            | _ =>
              if (r4.takeWhile pyIsSpace).isEmpty then none
              else
                match r4.dropWhile pyIsSpace with
                | [] => none
                | e :: r6 =>
                  if isLowerAZ e then
                    let w3tail := r6.takeWhile isLowerOrHyphen
                    if (r6.dropWhile isLowerOrHyphen).isEmpty then
                      some (genus, word2, some (String.mk (e :: w3tail)))
                    else none
                  else none
          else none
    else none

/-- The kind field of TaxonItem: the Python code only ever constructs
"species" and "subspecies". -/
inductive TaxonKind
  | species
  | subspecies
deriving DecidableEq

/-- TaxonItem from src/extract.py. -/
structure TaxonItem where
  kind : TaxonKind
  taxon : String
deriving DecidableEq

/-- Association-list model of a Python dict of strings; the most recent
write sits at the head of the list. -/
def dictInsert (m : List (String × String)) (k v : String) : List (String × String) :=
  (k, v) :: m

/-- Python dict .get(k, ""): value of the most recent write for the key,
or the empty string when the key is absent. -/
def dictGet (m : List (String × String)) (k : String) : String :=
  match m.find? (fun kv => kv.1 = k) with
  | some kv => kv.2
  | none => ""

/-- The mutable state of BOAHTMLParser. -/
structure ParserState where
  items : List TaxonItem
  species_common : List (String × String)
  in_p9 : Bool
  in_p9s : Bool
  capture_a : Bool
  a_buf : List String
  capture_common : Bool
  common_buf : List String
  last_species_in_p9 : Option String
deriving DecidableEq

/-- The parser state right after construction. -/
def initParserState : ParserState :=
  { items := [], species_common := [], in_p9 := false, in_p9s := false,
    capture_a := false, a_buf := [], capture_common := false, common_buf := [],
    last_species_in_p9 := none }

/-- Python attrs dict lookup: lowercase the attribute names, later
duplicates win, missing key gives the empty string. -/
def attrsGet (attrs : List (String × String)) (key : String) : String :=
  (attrs.foldl (fun acc kv => if strLower kv.1 = key then some kv.2 else acc) none).getD ""

/-- BOAHTMLParser.handle_starttag. -/
def handle_starttag (st : ParserState) (tag : String) (attrs : List (String × String)) :
    ParserState :=
  let t := strLower tag
  let pid := attrsGet attrs "id"
  let st :=
    if t = "p" then
      if pid = "p9" then
        { st with in_p9 := true, in_p9s := false, last_species_in_p9 := none }
      else if pid = "p9s" then
        { st with in_p9s := true, in_p9 := false }
      else st
    else st
  let st :=
    if t = "a" ∧ (st.in_p9 || st.in_p9s) = true then
      { st with capture_a := true, a_buf := [] }
    else st
  if t = "i" ∧ st.in_p9 = true ∧ pid = "e" then
    { st with capture_common := true, common_buf := [] }
  else st

/-- BOAHTMLParser.handle_endtag. -/
def handle_endtag (st : ParserState) (tag : String) : ParserState :=
  let t := strLower tag
  let st :=
    if t = "a" ∧ st.capture_a = true then
      let text := collapse (String.join st.a_buf)
      let st := { st with capture_a := false, a_buf := [] }
      match matchTaxon text with
      | some (genus, sp, ssp) =>
        let norm_species := genus ++ " " ++ sp
        if (st.in_p9s || (ssp.isSome && st.in_p9)) = true then
          { st with items := st.items ++ [⟨TaxonKind.subspecies, text⟩] }
        else
          let st := { st with items := st.items ++ [⟨TaxonKind.species, norm_species⟩] }
          if st.in_p9 = true then { st with last_species_in_p9 := some norm_species }
          else st
      | none => st
    else st
  let st :=
    if t = "i" ∧ st.capture_common = true then
      let common := collapse (String.join st.common_buf)
      let st := { st with capture_common := false, common_buf := [] }
      if common ≠ "" then
        match st.last_species_in_p9 with
        | some last =>
          if last ≠ "" then
            { st with species_common := dictInsert st.species_common last common }
          else st
        | none => st
      else st
    else st
  if t = "p" then
    let st :=
      if st.in_p9 = true then { st with in_p9 := false, last_species_in_p9 := none }
      else st
    if st.in_p9s = true then { st with in_p9s := false } else st
  else st

/-- BOAHTMLParser.handle_data. -/
def handle_data (st : ParserState) (data : String) : ParserState :=
  let st :=
    if st.capture_a = true ∧ data ≠ "" then { st with a_buf := st.a_buf ++ [data] }
    else st
  if st.capture_common = true ∧ data ≠ "" then { st with common_buf := st.common_buf ++ [data] }
  else st

/-- Abstract markup events produced by the streaming tokenizer. -/
inductive MarkupEvent
  | start (tag : String) (attrs : List (String × String))
  | close (tag : String)
  | text (data : String)

/-- Dispatch one tokenizer event to the matching handler. -/
def feedEvent (st : ParserState) (e : MarkupEvent) : ParserState :=
  match e with
  | .start tag attrs => handle_starttag st tag attrs
  | .close tag => handle_endtag st tag
  | .text data => handle_data st data

/-- Feed a whole event list through the parser from the initial state. -/
def runParser (evs : List MarkupEvent) : ParserState :=
  evs.foldl feedEvent initParserState

/-- normalize_species from src/extract.py: first two whitespace-separated
words when there are at least two, otherwise the stripped text. -/
def normalize_species (taxon_text : String) : String :=
  match pySplit taxon_text with
  | p0 :: p1 :: _ => p0 ++ " " ++ p1
  | _ => pyStrip taxon_text

/-- subspecies_epithet_only from src/extract.py: last whitespace-separated
word, or the empty string. -/
def subspecies_epithet_only (trinomial_text : String) : String :=
  (pySplit trinomial_text).getLast?.getD ""

/-- An output row: (species, subspecies epithet, common name). -/
abbrev Row := String × String × String

/-- The local mutable state of build_rows. -/
structure BRState where
  rows : List Row
  current_species : String
  current_common : String
  current_species_had_subspecies : Bool
deriving DecidableEq

/-- The state of build_rows before any item is processed. -/
def brInit : BRState := ⟨[], "", "", false⟩

/-- flush_blank_if_needed from build_rows: emit the blank-subspecies row
for the current species when it is set and had no subspecies. -/
def flush_blank_if_needed (st : BRState) : BRState :=
  if st.current_species ≠ "" ∧ st.current_species_had_subspecies = false then
    { st with rows := st.rows ++ [(st.current_species, "", st.current_common)] }
  else st

/-- One iteration of the loop body of build_rows. -/
def build_rows_step (sc : List (String × String)) (st : BRState) (it : TaxonItem) : BRState :=
  match it.kind with
  | .species =>
    let st := flush_blank_if_needed st
    let ns := normalize_species it.taxon
    { st with current_species := ns, current_common := dictGet sc ns,
              current_species_had_subspecies := false }
  | .subspecies =>
    let inferred := normalize_species it.taxon
    let st :=
      if st.current_species = "" then
        { st with current_species := inferred, current_common := dictGet sc inferred }
      else st
    let st := { st with current_species_had_subspecies := true }
    { st with rows :=
        st.rows ++ [(st.current_species, subspecies_epithet_only it.taxon, st.current_common)] }

/-- The loop of build_rows from a given state. -/
def brRun (sc : List (String × String)) (st : BRState) (items : List TaxonItem) : BRState :=
  items.foldl (build_rows_step sc) st

/-- The row sequence emitted by build_rows before deduplication: run the
loop from the initial state and apply the final flush. -/
def rows_raw (items : List TaxonItem) (sc : List (String × String)) : List Row :=
  (flush_blank_if_needed (brRun sc brInit items)).rows

/-- The dedup loop at the end of build_rows: seen-set plus output list,
keeping the first occurrence of each row. -/
def dedupGo (seen : List Row) : List Row → List Row
  | [] => []
  | r :: rest => if r ∈ seen then dedupGo seen rest else r :: dedupGo (r :: seen) rest

/-- build_rows from src/extract.py. -/
def build_rows (items : List TaxonItem) (sc : List (String × String)) : List Row :=
  dedupGo [] (rows_raw items sc)

/-- Diagnostic printed by main when the parser found no items. -/
def noTaxaMsg : String := "No taxa found. The page markup/pattern may have changed."

/-- Diagnostic printed by main when build_rows returned an empty list. -/
def noRowsMsg : String := "No rows produced after processing taxa."

/-- The decision logic of main after a successful fetch and parse: exit
code and the message it reports, as a function of the parsed items, the
species-to-common-name mapping and the output path. -/
def main_outcome (items : List TaxonItem) (sc : List (String × String))
    (out_path : String) : Nat × String :=
  if items = [] then (2, noTaxaMsg)
  else
    let rows := build_rows items sc
    if rows = [] then (2, noRowsMsg)
    else (0, "Wrote " ++ toString rows.length ++ " rows to " ++ out_path)

/-- Spec-side definition, following the specification wording for the
deduplication step: walk the emitted sequence and keep an element exactly
when it did not occur among the elements before it (first-occurrence order
preserved); `prev` accumulates all elements already walked. -/
def specKeepFirst (prev : List Row) : List Row → List Row
  | [] => []
  | r :: rest =>
    if r ∈ prev then specKeepFirst (prev ++ [r]) rest
    else r :: specKeepFirst (prev ++ [r]) rest

/-- Number of copies of a row in a list, by filtering on structural
equality. -/
def countRow (r : Row) (l : List Row) : Nat :=
  (l.filter (fun x => x = r)).length

/-- The item segment of one species event followed immediately by its
subspecies events. -/
def segItems (s : String) (subs : List String) : List TaxonItem :=
  ⟨TaxonKind.species, s⟩ :: subs.map (fun t => ⟨TaxonKind.subspecies, t⟩)

/-- The rows such a segment is expected to contribute: one row per
subspecies event, sharing the normalized species and its mapped common
name, each carrying the trailing epithet of its trinomial. -/
def segRows (sc : List (String × String)) (s : String) (subs : List String) : List Row :=
  subs.map (fun t =>
    (normalize_species s, subspecies_epithet_only t, dictGet sc (normalize_species s)))

/-! ### Helper lemmas about the dedup loop -/

theorem countRow_eq_one (l : List Row) (r : Row) (hnd : l.Nodup) (hm : r ∈ l) :
    countRow r l = 1 := by
  induction l with
  | nil => cases hm
  | cons a rest ih =>
    have hnd' := List.nodup_cons.mp hnd
    rcases List.mem_cons.mp hm with rfl | hr
    · have hrest : rest.filter (fun x => decide (x = r)) = [] := by
        rw [List.filter_eq_nil_iff]
        intro x hx
        simp only [decide_eq_true_eq]
        rintro rfl
        exact hnd'.1 hx
      simp [countRow, List.filter_cons, hrest]
    · have hne : ¬(a = r) := by
        rintro rfl
        exact hnd'.1 hr
      simp only [countRow, List.filter_cons, decide_eq_true_eq]
      rw [if_neg hne]
      exact ih hnd'.2 hr

theorem mem_dedupGo (a : Row) :
    ∀ (l seen : List Row), a ∈ dedupGo seen l ↔ a ∈ l ∧ a ∉ seen := by
  intro l
  induction l with
  | nil => intro seen; simp [dedupGo]
  | cons r rest ih =>
    intro seen
    by_cases hr : r ∈ seen
    · simp only [dedupGo, if_pos hr, ih, List.mem_cons]
      constructor
      · rintro ⟨h1, h2⟩; exact ⟨Or.inr h1, h2⟩
      · rintro ⟨h1 | h1, h2⟩
        · exact absurd (h1 ▸ hr) h2
        · exact ⟨h1, h2⟩
    · simp only [dedupGo, if_neg hr, List.mem_cons, ih, List.mem_cons]
      constructor
      · rintro (rfl | ⟨h1, h2⟩)
        · exact ⟨Or.inl rfl, hr⟩
        · exact ⟨Or.inr h1, fun hs => h2 (Or.inr hs)⟩
      · rintro ⟨rfl | h1, h2⟩
        · exact Or.inl rfl
        · by_cases har : a = r
          · exact Or.inl har
          · exact Or.inr ⟨h1, fun hs => hs.elim har h2⟩

theorem nodup_dedupGo : ∀ (l seen : List Row), (dedupGo seen l).Nodup := by
  intro l
  induction l with
  | nil => intro seen; simp [dedupGo]
  | cons r rest ih =>
    intro seen
    by_cases hr : r ∈ seen
    · simpa [dedupGo, if_pos hr] using ih seen
    · simp only [dedupGo, if_neg hr]
      refine List.nodup_cons.mpr ⟨?_, ih (r :: seen)⟩
      intro hmem
      exact ((mem_dedupGo r rest (r :: seen)).mp hmem).2 (List.mem_cons_self r seen)

theorem dedupGo_sublist : ∀ (l seen : List Row), List.Sublist (dedupGo seen l) l := by
  intro l
  induction l with
  | nil => intro seen; simp [dedupGo]
  | cons r rest ih =>
    intro seen
    by_cases hr : r ∈ seen
    · simpa [dedupGo, if_pos hr] using (ih seen).cons r
    · simpa [dedupGo, if_neg hr] using (ih (r :: seen)).cons₂ r

theorem dedupGo_take :
    ∀ (A : List Row), A.Nodup → ∀ (B seen : List Row), (∀ a ∈ A, a ∉ seen) →
      (dedupGo seen (A ++ B)).take A.length = A := by
  intro A
  induction A with
  | nil => intro _ B seen _; simp
  | cons r A' ih =>
    intro hnd B seen hseen
    have hr : r ∉ seen := hseen r (List.mem_cons_self r A')
    have hnd' := List.nodup_cons.mp hnd
    simp only [List.cons_append, dedupGo, if_neg hr, List.length_cons, List.take_succ_cons]
    refine congrArg (r :: ·) (ih hnd'.2 B (r :: seen) ?_)
    intro a ha
    simp only [List.mem_cons]
    rintro (rfl | hs)
    · exact hnd'.1 ha
    · exact hseen a (List.mem_cons_of_mem r ha) hs

theorem dedupGo_eq_specKeepFirst :
    ∀ (l seen prev : List Row), (∀ a : Row, a ∈ seen ↔ a ∈ prev) →
      dedupGo seen l = specKeepFirst prev l := by
  intro l
  induction l with
  | nil => intro seen prev _; simp [dedupGo, specKeepFirst]
  | cons r rest ih =>
    intro seen prev hiff
    by_cases hr : r ∈ seen
    · rw [dedupGo, if_pos hr, specKeepFirst, if_pos ((hiff r).mp hr)]
      refine ih seen (prev ++ [r]) ?_
      intro a
      rw [hiff a, List.mem_append, List.mem_singleton]
      constructor
      · exact Or.inl
      · rintro (h | rfl)
        · exact h
        · exact (hiff a).mp hr
    · rw [dedupGo, if_neg hr, specKeepFirst, if_neg (fun h => hr ((hiff r).mpr h))]
      refine congrArg (r :: ·) (ih (r :: seen) (prev ++ [r]) ?_)
      intro a
      simp only [List.mem_cons, List.mem_append, List.mem_singleton, hiff a]
      tauto

/-! ### Helper lemmas about the row-builder loop -/

theorem flush_rows_extend (st : BRState) :
    ∃ d, (flush_blank_if_needed st).rows = st.rows ++ d := by
  unfold flush_blank_if_needed
  split
  · exact ⟨_, rfl⟩
  · exact ⟨[], (List.append_nil _).symm⟩

theorem step_rows_extend (sc : List (String × String)) (st : BRState) (it : TaxonItem) :
    ∃ d, (build_rows_step sc st it).rows = st.rows ++ d := by
  cases it with
  | mk kind taxon =>
    cases kind with
    | species =>
      obtain ⟨d, hd⟩ := flush_rows_extend st
      exact ⟨d, hd⟩
    | subspecies =>
      simp only [build_rows_step]
      split
      · exact ⟨_, rfl⟩
      · exact ⟨_, rfl⟩

theorem brRun_rows_extend (sc : List (String × String)) :
    ∀ (items : List TaxonItem) (st : BRState), ∃ d, (brRun sc st items).rows = st.rows ++ d := by
  intro items
  induction items with
  | nil => intro st; exact ⟨[], (List.append_nil _).symm⟩
  | cons it rest ih =>
    intro st
    obtain ⟨d1, hd1⟩ := step_rows_extend sc st it
    obtain ⟨d2, hd2⟩ := ih (build_rows_step sc st it)
    exact ⟨d1 ++ d2, by rw [brRun, List.foldl_cons, ← brRun, hd2, hd1, List.append_assoc]⟩

theorem rows_raw_from (sc : List (String × String)) (st : BRState) (l : List TaxonItem) :
    ∃ d, (flush_blank_if_needed (brRun sc st l)).rows = st.rows ++ d := by
  obtain ⟨d1, hd1⟩ := brRun_rows_extend sc l st
  obtain ⟨d2, hd2⟩ := flush_rows_extend (brRun sc st l)
  exact ⟨d1 ++ d2, by rw [hd2, hd1, List.append_assoc]⟩

theorem step_species_state (sc : List (String × String)) (st : BRState) (s : String) :
    build_rows_step sc st ⟨TaxonKind.species, s⟩ =
      ⟨(flush_blank_if_needed st).rows, normalize_species s,
        dictGet sc (normalize_species s), false⟩ := rfl

theorem flush_of_set (st : BRState) (h1 : st.current_species ≠ "")
    (h2 : st.current_species_had_subspecies = false) :
    (flush_blank_if_needed st).rows =
      st.rows ++ [(st.current_species, "", st.current_common)] := by
  rw [flush_blank_if_needed, if_pos ⟨h1, h2⟩]

theorem flush_of_had (st : BRState) (h : st.current_species_had_subspecies = true) :
    flush_blank_if_needed st = st := by
  rw [flush_blank_if_needed, if_neg (by simp [h])]

theorem dedupGo_eq_self :
    ∀ (A : List Row), A.Nodup → ∀ (seen : List Row), (∀ a ∈ A, a ∉ seen) →
      dedupGo seen A = A := by
  intro A
  induction A with
  | nil => intro _ seen _; rfl
  | cons r A' ih =>
    intro hnd seen hsn
    have hr : r ∉ seen := hsn r (List.mem_cons_self r A')
    have hnd' := List.nodup_cons.mp hnd
    simp only [dedupGo, if_neg hr]
    refine congrArg (r :: ·) (ih hnd'.2 (r :: seen) ?_)
    intro a ha
    simp only [List.mem_cons]
    rintro (rfl | hs)
    · exact hnd'.1 ha
    · exact hsn a (List.mem_cons_of_mem r ha) hs

theorem brRun_subs (sc : List (String × String)) (S c : String) (hS : S ≠ "") :
    ∀ (subs : List String) (R : List Row) (b : Bool),
      brRun sc ⟨R, S, c, b⟩ (subs.map (fun t => ⟨TaxonKind.subspecies, t⟩)) =
        ⟨R ++ subs.map (fun t => (S, subspecies_epithet_only t, c)), S, c,
          b || !subs.isEmpty⟩ := by
  intro subs
  induction subs with
  | nil => intro R b; simp [brRun]
  | cons t rest ih =>
    intro R b
    have hstep : build_rows_step sc ⟨R, S, c, b⟩ ⟨TaxonKind.subspecies, t⟩ =
        ⟨R ++ [(S, subspecies_epithet_only t, c)], S, c, true⟩ := by
      simp [build_rows_step, hS]
    rw [List.map_cons, brRun, List.foldl_cons, ← brRun, hstep, ih]
    simp [List.append_assoc]

theorem brRun_cons (sc : List (String × String)) (st : BRState) (it : TaxonItem)
    (l : List TaxonItem) :
    brRun sc st (it :: l) = brRun sc (build_rows_step sc st it) l := by
  simp [brRun]

theorem brRun_append (sc : List (String × String)) (st : BRState) (l1 l2 : List TaxonItem) :
    brRun sc st (l1 ++ l2) = brRun sc (brRun sc st l1) l2 := by
  simp [brRun]

/-- C1 counterexample: on the event stream consisting only of
Species "Microtia elvira" with an empty mapping, the code emits the row
with an empty subspecies field, not the row carrying the species epithet
"elvira" that the claim asserts. -/
theorem C1_counterexample :
    build_rows [⟨TaxonKind.species, "Microtia elvira"⟩] [] = [("Microtia elvira", "", "")]
    ∧ build_rows [⟨TaxonKind.species, "Microtia elvira"⟩] [] ≠
        [("Microtia elvira", "elvira", "")] := by
  constructor
  · rfl
  · decide

/-- C1 amended: when a Species event arrives while a previous species is
current with no subspecies recorded, and likewise at end of stream, the
nominate row emitted for the previous species is
(currentSpecies, "", currentCommon) — the subspecies field is blank, not
the species epithet — and the concrete scenario with only
Species "Microtia elvira" yields exactly the row
("Microtia elvira", "", ""). -/
theorem C1_theorem :
    (∀ (sc : List (String × String)) (st : BRState) (name : String),
        st.current_species ≠ "" → st.current_species_had_subspecies = false →
        (build_rows_step sc st ⟨TaxonKind.species, name⟩).rows =
          st.rows ++ [(st.current_species, "", st.current_common)])
    ∧ (∀ st : BRState,
        st.current_species ≠ "" → st.current_species_had_subspecies = false →
        (flush_blank_if_needed st).rows =
          st.rows ++ [(st.current_species, "", st.current_common)])
    ∧ build_rows [⟨TaxonKind.species, "Microtia elvira"⟩] [] =
        [("Microtia elvira", "", "")] := by
  refine ⟨?_, ?_, rfl⟩
  · intro sc st name h1 h2
    exact flush_of_set st h1 h2
  · intro st h1 h2
    exact flush_of_set st h1 h2

/-- C1 witness: the amended nominate-row shape evaluated at a concrete
row-builder state. -/
theorem C1_witness :
    (⟨[], "Aa bb", "cc", false⟩ : BRState).current_species ≠ ""
    ∧ (build_rows_step [] ⟨[], "Aa bb", "cc", false⟩ ⟨TaxonKind.species, "Dd ee"⟩).rows =
        [("Aa bb", "", "cc")] :=
  ⟨by decide, C1_theorem.1 [] ⟨[], "Aa bb", "cc", false⟩ "Dd ee" (by decide) rfl⟩

/-- C3 (confirmed): the Row Builder on the stream
Species "Eurytides phaon", Subspecies "Eurytides phaon phaon",
Subspecies "Eurytides phaon bolivianus", with the common name
"Mexican Kite-Swallowtail" recorded for the binomial in the mapping,
returns exactly the two claimed rows in order. -/
theorem C3_theorem :
    build_rows
      [⟨TaxonKind.species, "Eurytides phaon"⟩,
       ⟨TaxonKind.subspecies, "Eurytides phaon phaon"⟩,
       ⟨TaxonKind.subspecies, "Eurytides phaon bolivianus"⟩]
      [("Eurytides phaon", "Mexican Kite-Swallowtail")] =
      [("Eurytides phaon", "phaon", "Mexican Kite-Swallowtail"),
       ("Eurytides phaon", "bolivianus", "Mexican Kite-Swallowtail")] := rfl

/-- C7 (confirmed): the output of build_rows has no two structurally
identical tuples, it is a subsequence of the pre-deduplication emitted
row sequence, it equals the first-occurrence-keeping filter of that
sequence (stated against the spec-side definition specKeepFirst), and two
structurally identical taxon events in sequence yield a single output
row for that tuple. -/
theorem C7_theorem :
    (∀ (items : List TaxonItem) (sc : List (String × String)),
        (build_rows items sc).Nodup)
    ∧ (∀ (items : List TaxonItem) (sc : List (String × String)),
        List.Sublist (build_rows items sc) (rows_raw items sc))
    ∧ (∀ (items : List TaxonItem) (sc : List (String × String)),
        build_rows items sc = specKeepFirst [] (rows_raw items sc))
    ∧ build_rows [⟨TaxonKind.subspecies, "Aa bb cc"⟩, ⟨TaxonKind.subspecies, "Aa bb cc"⟩] [] =
        [("Aa bb", "cc", "")] := by
  refine ⟨?_, ?_, ?_, rfl⟩
  · intro items sc
    exact nodup_dedupGo _ _
  · intro items sc
    exact dedupGo_sublist _ _
  · intro items sc
    exact dedupGo_eq_specKeepFirst _ [] [] (by simp)

/-- C6 (confirmed): on a stream whose first taxon event is a Subspecies
event with trinomial words w1 w2 w3, the first output row is
(w1 w2, w3, mapped common name of w1 w2): the orphan subspecies is not
discarded, the species is inferred from the leading two words, and the
common name comes from the mapping (empty if absent). -/
theorem C6_theorem (sc : List (String × String)) (t : String) (rest : List TaxonItem)
    (w1 w2 w3 : String) (h : pySplit t = [w1, w2, w3]) :
    (build_rows (⟨TaxonKind.subspecies, t⟩ :: rest) sc).head? =
      some (w1 ++ " " ++ w2, w3, dictGet sc (w1 ++ " " ++ w2)) := by
  have hn : normalize_species t = w1 ++ " " ++ w2 := by
    rw [normalize_species, h]
  have he : subspecies_epithet_only t = w3 := by
    rw [subspecies_epithet_only, h]
    rfl
  have hstep : build_rows_step sc brInit ⟨TaxonKind.subspecies, t⟩ =
      ⟨[(w1 ++ " " ++ w2, w3, dictGet sc (w1 ++ " " ++ w2))], w1 ++ " " ++ w2,
        dictGet sc (w1 ++ " " ++ w2), true⟩ := by
    simp [build_rows_step, brInit, hn, he]
  obtain ⟨d, hd⟩ := rows_raw_from sc (build_rows_step sc brInit ⟨TaxonKind.subspecies, t⟩) rest
  have hraw : rows_raw (⟨TaxonKind.subspecies, t⟩ :: rest) sc =
      (w1 ++ " " ++ w2, w3, dictGet sc (w1 ++ " " ++ w2)) :: d := by
    rw [rows_raw, brRun_cons, hd, hstep]
    rfl
  rw [build_rows, hraw, dedupGo]
  simp

/-- C6 witness: the orphan-subspecies theorem evaluated on the concrete
stream starting with Subspecies "Aa bb cc". -/
theorem C6_witness :
    pySplit "Aa bb cc" = ["Aa", "bb", "cc"]
    ∧ (build_rows [⟨TaxonKind.subspecies, "Aa bb cc"⟩] []).head? =
        some ("Aa" ++ " " ++ "bb", "cc", dictGet [] ("Aa" ++ " " ++ "bb")) :=
  ⟨by decide, C6_theorem [] "Aa bb cc" [] "Aa" "bb" "cc" (by decide)⟩

/-- C2 (confirmed): for a species event whose normalized binomial is
non-empty and which is followed by zero subspecies events before the next
species boundary or the end of the stream, the output contains exactly one
copy of the nominate row for it; that row has an empty subspecies field
and its common-name field is exactly the mapping lookup (empty if
absent). -/
theorem C2_theorem (sc : List (String × String)) (l1 l2 : List TaxonItem) (s : String)
    (hS : normalize_species s ≠ "")
    (hb : l2 = [] ∨ ∃ s2 t2, l2 = ⟨TaxonKind.species, s2⟩ :: t2) :
    countRow (normalize_species s, "", dictGet sc (normalize_species s))
      (build_rows (l1 ++ ⟨TaxonKind.species, s⟩ :: l2) sc) = 1 := by
  have key : (normalize_species s, "", dictGet sc (normalize_species s)) ∈
      rows_raw (l1 ++ ⟨TaxonKind.species, s⟩ :: l2) sc := by
    have hra : rows_raw (l1 ++ ⟨TaxonKind.species, s⟩ :: l2) sc =
        (flush_blank_if_needed (brRun sc
          (build_rows_step sc (brRun sc brInit l1) ⟨TaxonKind.species, s⟩) l2)).rows := by
      rw [rows_raw, brRun_append, brRun_cons]
    rw [hra]
    rcases hb with rfl | ⟨s2, t2, rfl⟩
    · rw [show brRun sc (build_rows_step sc (brRun sc brInit l1) ⟨TaxonKind.species, s⟩) [] =
          build_rows_step sc (brRun sc brInit l1) ⟨TaxonKind.species, s⟩ from rfl,
        flush_of_set _ hS rfl]
      exact List.mem_append_right _ (List.mem_singleton_self _)
    · rw [brRun_cons]
      obtain ⟨d, hd⟩ := rows_raw_from sc
        (build_rows_step sc (build_rows_step sc (brRun sc brInit l1) ⟨TaxonKind.species, s⟩)
          ⟨TaxonKind.species, s2⟩) t2
      rw [hd]
      have hfl : (build_rows_step sc
          (build_rows_step sc (brRun sc brInit l1) ⟨TaxonKind.species, s⟩)
          ⟨TaxonKind.species, s2⟩).rows =
          (build_rows_step sc (brRun sc brInit l1) ⟨TaxonKind.species, s⟩).rows ++
            [(normalize_species s, "", dictGet sc (normalize_species s))] :=
        flush_of_set _ hS rfl
      rw [hfl, List.append_assoc]
      exact List.mem_append_right _ (List.mem_append_left _ (List.mem_singleton_self _))
  exact countRow_eq_one _ _ (nodup_dedupGo _ _)
    ((mem_dedupGo _ _ _).mpr ⟨key, List.not_mem_nil _⟩)

/-- C2 witness: the nominate-synthesis count evaluated on the stream made
of the single event Species "Microtia elvira" with an empty mapping. -/
theorem C2_witness :
    normalize_species "Microtia elvira" ≠ ""
    ∧ countRow (normalize_species "Microtia elvira", "",
          dictGet [] (normalize_species "Microtia elvira"))
        (build_rows [⟨TaxonKind.species, "Microtia elvira"⟩] []) = 1 :=
  ⟨by decide, C2_theorem [] [] [] "Microtia elvira" (by decide) (Or.inl rfl)⟩

/-- C4 (confirmed): a species event with non-empty normalized binomial,
followed immediately by N >= 1 subspecies events with pairwise-distinct
trailing epithets, all before the next species boundary or the end of the
stream, makes the builder emit exactly the N subspecies rows for it and
nothing else: the segment emits exactly those rows; at end of stream the
final flush adds no nominate row, so the raw emission and the whole
deduplicated output are exactly the N rows; at a next species boundary
the boundary step likewise adds no nominate row for this species; and in
an arbitrary context the N rows, sharing the species value and mapped
common name with epithets in event order, open the deduplicated
output. -/
theorem C4_theorem (sc : List (String × String)) (s : String) (subs : List String)
    (tail : List TaxonItem) (hS : normalize_species s ≠ "") (hne : subs ≠ [])
    (hnd : (subs.map subspecies_epithet_only).Nodup) :
    (brRun sc brInit (segItems s subs)).rows = segRows sc s subs
    ∧ rows_raw (segItems s subs) sc = segRows sc s subs
    ∧ build_rows (segItems s subs) sc = segRows sc s subs
    ∧ (∀ s2 : String,
        (brRun sc brInit (segItems s subs ++ [⟨TaxonKind.species, s2⟩])).rows =
          segRows sc s subs)
    ∧ (build_rows (segItems s subs ++ tail) sc).take subs.length = segRows sc s subs := by
  have hie : subs.isEmpty = false := by
    cases subs with
    | nil => exact absurd rfl hne
    | cons x xs => rfl
  have hstep0 : build_rows_step sc brInit ⟨TaxonKind.species, s⟩ =
      ⟨[], normalize_species s, dictGet sc (normalize_species s), false⟩ := rfl
  have hrun : brRun sc brInit (segItems s subs) =
      ⟨segRows sc s subs, normalize_species s, dictGet sc (normalize_species s), true⟩ := by
    rw [segItems, brRun_cons, hstep0, brRun_subs sc _ _ hS]
    simp [segRows, hie]
  have hAnd : (segRows sc s subs).Nodup := by
    have hmm : segRows sc s subs =
        (subs.map subspecies_epithet_only).map
          (fun e => (normalize_species s, e, dictGet sc (normalize_species s))) := by
      simp [segRows, List.map_map, Function.comp]
    rw [hmm]
    refine hnd.map ?_
    intro a b hab
    simpa using hab
  have hraw2 : rows_raw (segItems s subs) sc = segRows sc s subs := by
    rw [rows_raw, hrun, flush_of_had _ rfl]
  refine ⟨by rw [hrun], hraw2, ?_, ?_, ?_⟩
  · rw [build_rows, hraw2]
    exact dedupGo_eq_self _ hAnd [] (fun a _ => List.not_mem_nil a)
  · intro s2
    rw [brRun_append, hrun]
    show (build_rows_step sc
        (⟨segRows sc s subs, normalize_species s, dictGet sc (normalize_species s), true⟩ :
          BRState) ⟨TaxonKind.species, s2⟩).rows = segRows sc s subs
    rw [step_species_state, flush_of_had _ rfl]
  · obtain ⟨d, hd⟩ := rows_raw_from sc
      (⟨segRows sc s subs, normalize_species s, dictGet sc (normalize_species s), true⟩ :
        BRState) tail
    have hraw : rows_raw (segItems s subs ++ tail) sc = segRows sc s subs ++ d := by
      rw [rows_raw, brRun_append, hrun]
      exact hd
    have hlen : (segRows sc s subs).length = subs.length := by
      simp [segRows]
    rw [build_rows, hraw, ← hlen]
    exact dedupGo_take _ hAnd d [] (fun a _ => List.not_mem_nil a)

/-- C4 witness: the hierarchy-propagation theorem evaluated on
Species "Aa bb" followed by the single subspecies "Aa bb cc", at end of
stream and at a following species boundary. -/
theorem C4_witness :
    normalize_species "Aa bb" ≠ ""
    ∧ build_rows (segItems "Aa bb" ["Aa bb cc"]) [] = segRows [] "Aa bb" ["Aa bb cc"]
    ∧ (brRun [] brInit
        (segItems "Aa bb" ["Aa bb cc"] ++ [⟨TaxonKind.species, "Dd ee"⟩])).rows =
      segRows [] "Aa bb" ["Aa bb cc"]
    ∧ (build_rows (segItems "Aa bb" ["Aa bb cc"] ++ []) []).take (["Aa bb cc"].length) =
      segRows [] "Aa bb" ["Aa bb cc"] := by
  have h := C4_theorem [] "Aa bb" ["Aa bb cc"] [] (by decide) (by decide) (by decide)
  exact ⟨by decide, h.2.2.1, h.2.2.2.1 "Dd ee", h.2.2.2.2⟩

/-! ### Helper lemmas about the parser state machine -/

theorem endtag_flags_p (st : ParserState) (tag : String) (hp : strLower tag = "p") :
    (handle_endtag st tag).in_p9 = false ∧ (handle_endtag st tag).in_p9s = false := by
  obtain ⟨it, scm, p9, p9s, ca, ab, cc, cb, la⟩ := st
  cases p9 <;> cases p9s <;> simp [handle_endtag, hp]

theorem endtag_flags_not_p (st : ParserState) (tag : String) (hp : ¬ strLower tag = "p") :
    (handle_endtag st tag).in_p9 = st.in_p9 ∧ (handle_endtag st tag).in_p9s = st.in_p9s := by
  obtain ⟨it, scm, p9, p9s, ca, ab, cc, cb, la⟩ := st
  by_cases ha : strLower tag = "a" ∧ ca = true
  · obtain ⟨ha1, ha2⟩ := ha
    subst ha2
    cases hm : matchTaxon (collapse (String.join ab)) with
    | none => simp [handle_endtag, ha1, hp, hm]
    | some v =>
      obtain ⟨g, sp, ssp⟩ := v
      simp [handle_endtag, ha1, hp, hm]
      split_ifs <;> simp
  · by_cases hi : strLower tag = "i" ∧ cc = true
    · obtain ⟨hi1, hi2⟩ := hi
      subst hi2
      cases la <;> simp [handle_endtag, hi1, hp] <;> split_ifs <;> simp
    · simp [handle_endtag, ha, hi, hp]

theorem starttag_flags_exclusive (st : ParserState) (tag : String)
    (attrs : List (String × String)) (h : (st.in_p9 && st.in_p9s) = false) :
    ((handle_starttag st tag attrs).in_p9 && (handle_starttag st tag attrs).in_p9s) = false := by
  obtain ⟨it, scm, p9, p9s, ca, ab, cc, cb, la⟩ := st
  simp only [handle_starttag]
  split_ifs <;> simp_all

theorem data_flags (st : ParserState) (data : String) :
    (handle_data st data).in_p9 = st.in_p9 ∧ (handle_data st data).in_p9s = st.in_p9s := by
  obtain ⟨it, scm, p9, p9s, ca, ab, cc, cb, la⟩ := st
  simp only [handle_data]
  split_ifs <;> simp_all

theorem feed_flags_exclusive (st : ParserState) (e : MarkupEvent)
    (h : (st.in_p9 && st.in_p9s) = false) :
    ((feedEvent st e).in_p9 && (feedEvent st e).in_p9s) = false := by
  cases e with
  | start tag attrs => exact starttag_flags_exclusive st tag attrs h
  | close tag =>
    rw [feedEvent]
    by_cases hp : strLower tag = "p"
    · rw [(endtag_flags_p st tag hp).1]
      simp
    · rw [(endtag_flags_not_p st tag hp).1, (endtag_flags_not_p st tag hp).2]
      exact h
  | text data =>
    have hf := data_flags st data
    rw [feedEvent, hf.1, hf.2]
    exact h

theorem run_flags_exclusive :
    ∀ (evs : List MarkupEvent) (st : ParserState), (st.in_p9 && st.in_p9s) = false →
      ((evs.foldl feedEvent st).in_p9 && (evs.foldl feedEvent st).in_p9s) = false := by
  intro evs
  induction evs with
  | nil => intro st h; simpa using h
  | cons e rest ih =>
    intro st h
    rw [List.foldl_cons]
    exact ih (feedEvent st e) (feed_flags_exclusive st e h)

/-- C5 counterexample: inside the subspecies region, the anchor text
"Microtia elvira" matches the two-word pattern, yet the parser records a
Subspecies item for it, not the Species event the claim asserts. -/
theorem C5_counterexample :
    matchTaxon "Microtia elvira" = some ("Microtia", "elvira", none)
    ∧ (runParser [MarkupEvent.start "p" [("id", "p9s")], MarkupEvent.start "a" [],
        MarkupEvent.text "Microtia elvira", MarkupEvent.close "a"]).items =
      [⟨TaxonKind.subspecies, "Microtia elvira"⟩] :=
  ⟨rfl, rfl⟩

/-- C5 amended: when a captured anchor closes and its collapsed text
matches the taxon pattern, the classification follows the combined guard:
inside region (b), or on a three-word match inside region (a), a
Subspecies event carrying the collapsed text is produced and the
last-species tracker is untouched; otherwise — so for a two-word match
outside region (b), and also for a three-word match outside both
regions — a Species event with the first two matched words is produced,
and the last-species tracker is updated to that binomial exactly when the
scanner is inside region (a). -/
theorem C5_theorem (st : ParserState) (tag genus sp : String) (ssp : Option String)
    (htag : strLower tag = "a") (hcap : st.capture_a = true)
    (hm : matchTaxon (collapse (String.join st.a_buf)) = some (genus, sp, ssp)) :
    ((st.in_p9s || (ssp.isSome && st.in_p9)) = true →
        (handle_endtag st tag).items =
          st.items ++ [⟨TaxonKind.subspecies, collapse (String.join st.a_buf)⟩]
        ∧ (handle_endtag st tag).last_species_in_p9 = st.last_species_in_p9)
    ∧ ((st.in_p9s || (ssp.isSome && st.in_p9)) = false →
        (handle_endtag st tag).items =
          st.items ++ [⟨TaxonKind.species, genus ++ " " ++ sp⟩]
        ∧ (handle_endtag st tag).last_species_in_p9 =
            (if st.in_p9 = true then some (genus ++ " " ++ sp)
             else st.last_species_in_p9)) := by
  obtain ⟨it, scm, p9, p9s, ca, ab, cc, cb, la⟩ := st
  simp only at hcap hm
  subst hcap
  constructor
  · intro hcond
    simp only at hcond
    simp [handle_endtag, htag, hm, hcond]
  · intro hcond
    simp only at hcond
    simp only [handle_endtag, htag, hm, hcond]
    cases p9 <;> simp_all

/-- C5 witness: the amended classification evaluated on a concrete state
capturing the two-word anchor text "Microtia elvira" inside the
subspecies region. -/
theorem C5_witness :
    (⟨[], [], false, true, true, ["Microtia elvira"], false, [], none⟩ :
        ParserState).capture_a = true
    ∧ (handle_endtag
        (⟨[], [], false, true, true, ["Microtia elvira"], false, [], none⟩ : ParserState)
        "a").items =
      [] ++ [⟨TaxonKind.subspecies, collapse (String.join ["Microtia elvira"])⟩] := by
  have h := C5_theorem
    (⟨[], [], false, true, true, ["Microtia elvira"], false, [], none⟩ : ParserState)
    "a" "Microtia" "elvira" none rfl rfl rfl
  exact ⟨rfl, (h.1 rfl).1⟩

/-- C8 counterexample: after the species region is entered, a species
anchor is captured, and the subspecies container opens (which closes the
species region per the claim), the last-species tracker still holds the
binomial instead of being cleared. -/
theorem C8_counterexample :
    (runParser [MarkupEvent.start "p" [("id", "p9")], MarkupEvent.start "a" [],
        MarkupEvent.text "Genus species", MarkupEvent.close "a"]).in_p9 = true
    ∧ (runParser [MarkupEvent.start "p" [("id", "p9")], MarkupEvent.start "a" [],
        MarkupEvent.text "Genus species", MarkupEvent.close "a",
        MarkupEvent.start "p" [("id", "p9s")]]).in_p9 = false
    ∧ (runParser [MarkupEvent.start "p" [("id", "p9")], MarkupEvent.start "a" [],
        MarkupEvent.text "Genus species", MarkupEvent.close "a",
        MarkupEvent.start "p" [("id", "p9s")]]).last_species_in_p9 =
      some "Genus species" :=
  ⟨rfl, rfl, rfl⟩

/-- C8 amended: the two region flags are mutually exclusive after any
event prefix; opening the container of one region closes the other; the
last-species tracker is reset to empty whenever the species region is
(re-)entered and cleared when the species region is closed by a paragraph
end tag — but when the species region is closed by the subspecies
container opening, the tracker retains its previous value. -/
theorem C8_theorem :
    (∀ evs : List MarkupEvent,
        ((runParser evs).in_p9 && (runParser evs).in_p9s) = false)
    ∧ (∀ (st : ParserState) (tag : String) (attrs : List (String × String)),
        strLower tag = "p" → attrsGet attrs "id" = "p9" →
          (handle_starttag st tag attrs).in_p9 = true
          ∧ (handle_starttag st tag attrs).in_p9s = false
          ∧ (handle_starttag st tag attrs).last_species_in_p9 = none)
    ∧ (∀ (st : ParserState) (tag : String) (attrs : List (String × String)),
        strLower tag = "p" → attrsGet attrs "id" = "p9s" →
          (handle_starttag st tag attrs).in_p9s = true
          ∧ (handle_starttag st tag attrs).in_p9 = false
          ∧ (handle_starttag st tag attrs).last_species_in_p9 = st.last_species_in_p9)
    ∧ (∀ (st : ParserState) (tag : String), strLower tag = "p" → st.in_p9 = true →
          (handle_endtag st tag).in_p9 = false
          ∧ (handle_endtag st tag).last_species_in_p9 = none) := by
  refine ⟨?_, ?_, ?_, ?_⟩
  · intro evs
    exact run_flags_exclusive evs initParserState rfl
  · intro st tag attrs h1 h2
    obtain ⟨it, scm, p9, p9s, ca, ab, cc, cb, la⟩ := st
    refine ⟨?_, ?_, ?_⟩ <;> simp [handle_starttag, h1, h2]
  · intro st tag attrs h1 h2
    obtain ⟨it, scm, p9, p9s, ca, ab, cc, cb, la⟩ := st
    refine ⟨?_, ?_, ?_⟩ <;> simp [handle_starttag, h1, h2]
  · intro st tag h1 h2
    obtain ⟨it, scm, p9, p9s, ca, ab, cc, cb, la⟩ := st
    simp only at h2
    subst h2
    constructor <;> simp only [handle_endtag, h1] <;> cases p9s <;> simp

/-- C8 witness: the amended tracker discipline evaluated at concrete
states and tags. -/
theorem C8_witness :
    (handle_starttag initParserState "p" [("id", "p9")]).in_p9 = true
    ∧ (handle_starttag
        (⟨[], [], true, false, false, [], false, [], some "Genus species"⟩ : ParserState)
        "p" [("id", "p9s")]).last_species_in_p9 = some "Genus species"
    ∧ (handle_endtag
        (⟨[], [], true, false, false, [], false, [], some "Genus species"⟩ : ParserState)
        "p").last_species_in_p9 = none := by
  refine ⟨(C8_theorem.2.1 initParserState "p" [("id", "p9")] rfl rfl).1, ?_, ?_⟩
  · exact (C8_theorem.2.2.1
      (⟨[], [], true, false, false, [], false, [], some "Genus species"⟩ : ParserState)
      "p" [("id", "p9s")] rfl rfl).2.2
  · exact (C8_theorem.2.2.2
      (⟨[], [], true, false, false, [], false, [], some "Genus species"⟩ : ParserState)
      "p" rfl rfl).2

/-- C10 counterexample: a paragraph end tag that closes the subspecies
region leaves both region flags false, as the claim says, but does not
clear the last-observed-species tracker: a value recorded in an earlier
species region survives. -/
theorem C10_counterexample :
    (runParser [MarkupEvent.start "p" [("id", "p9")], MarkupEvent.start "a" [],
        MarkupEvent.text "Genus species", MarkupEvent.close "a",
        MarkupEvent.start "p" [("id", "p9s")], MarkupEvent.close "p"]).in_p9 = false
    ∧ (runParser [MarkupEvent.start "p" [("id", "p9")], MarkupEvent.start "a" [],
        MarkupEvent.text "Genus species", MarkupEvent.close "a",
        MarkupEvent.start "p" [("id", "p9s")], MarkupEvent.close "p"]).in_p9s = false
    ∧ (runParser [MarkupEvent.start "p" [("id", "p9")], MarkupEvent.start "a" [],
        MarkupEvent.text "Genus species", MarkupEvent.close "a",
        MarkupEvent.start "p" [("id", "p9s")], MarkupEvent.close "p"]).last_species_in_p9 =
      some "Genus species" :=
  ⟨rfl, rfl, rfl⟩

/-- C10 amended: any paragraph end tag, regardless of attributes,
terminates whichever region is active — both region flags are false
afterwards — and it clears the last-observed-species tracker exactly when
the species region was active; when the species region was not active
(for example when only the subspecies region was open), the tracker keeps
its previous value. -/
theorem C10_theorem (st : ParserState) (tag : String) (h : strLower tag = "p") :
    (handle_endtag st tag).in_p9 = false
    ∧ (handle_endtag st tag).in_p9s = false
    ∧ (st.in_p9 = true → (handle_endtag st tag).last_species_in_p9 = none)
    ∧ (st.in_p9 = false →
        (handle_endtag st tag).last_species_in_p9 = st.last_species_in_p9) := by
  have hf := endtag_flags_p st tag h
  obtain ⟨it, scm, p9, p9s, ca, ab, cc, cb, la⟩ := st
  refine ⟨hf.1, hf.2, ?_, ?_⟩
  · intro h9
    simp only at h9
    subst h9
    simp only [handle_endtag, h]
    cases p9s <;> simp
  · intro h9
    simp only at h9
    subst h9
    simp only [handle_endtag, h]
    cases p9s <;> simp

/-- C10 witness: the amended paragraph-close behaviour evaluated at a
concrete state with only the subspecies region open. -/
theorem C10_witness :
    (handle_endtag
        (⟨[], [], false, true, false, [], false, [], some "Genus species"⟩ : ParserState)
        "p").in_p9 = false
    ∧ (handle_endtag
        (⟨[], [], false, true, false, [], false, [], some "Genus species"⟩ : ParserState)
        "p").in_p9s = false
    ∧ (handle_endtag
        (⟨[], [], false, true, false, [], false, [], some "Genus species"⟩ : ParserState)
        "p").last_species_in_p9 = some "Genus species" := by
  have h := C10_theorem
    (⟨[], [], false, true, false, [], false, [], some "Genus species"⟩ : ParserState)
    "p" rfl
  exact ⟨h.1, h.2.1, h.2.2.2 rfl⟩

/-- C9 (confirmed): after a successful fetch and parse, the exit code is
0 exactly when items were found and the Row Builder produced a non-empty
row list, and 2 exactly when no items were found or the produced row list
is empty; the two exit-2 conditions carry the two distinct diagnostic
messages. -/
theorem C9_theorem (items : List TaxonItem) (sc : List (String × String)) (p : String) :
    ((main_outcome items sc p).1 = 0 ↔ (items ≠ [] ∧ build_rows items sc ≠ []))
    ∧ ((main_outcome items sc p).1 = 2 ↔ (items = [] ∨ build_rows items sc = []))
    ∧ ((main_outcome items sc p).1 = 2 →
        (main_outcome items sc p).2 = (if items = [] then noTaxaMsg else noRowsMsg))
    ∧ noTaxaMsg ≠ noRowsMsg := by
  refine ⟨?_, ?_, ?_, by decide⟩ <;>
    simp only [main_outcome] <;> split_ifs <;> simp_all

/-- C9 witness: the exit-code characterization evaluated on an empty item
list. -/
theorem C9_witness :
    (main_outcome [] [] "out.xlsx").1 = 2
    ∧ (main_outcome [] [] "out.xlsx").2 = noTaxaMsg := by
  have h := C9_theorem [] [] "out.xlsx"
  have h2 : (main_outcome [] [] "out.xlsx").1 = 2 := (h.2.1).mpr (Or.inl rfl)
  refine ⟨h2, ?_⟩
  have h3 := h.2.2.1 h2
  simpa using h3

end BoaExtract
